import Mathlib

/-
Verification of the cache subsystem of `src/app.py` (MoySklad order notifier).

The development shallowly embeds the pure content of the cache store, merge,
staleness, stats/classification, refresh-orchestration and event fan-out code.
Conventions used throughout:

* The cache file is modelled as `Option String` (`none` = file missing,
  `some s` = file contents).  The external `orjson` serializer is modelled by
  an executable JSON printer `dumps` and parser `loads` over an inductive
  `Json` type covering exactly the value shapes the snapshot uses
  (strings, integers, null, arrays, string-keyed objects); `loads` returns
  `none` on undecodable input, mirroring the caught `JSONDecodeError`.
* Timestamps in `cache_is_stale` are modelled by their parse result
  (`Option Int`, seconds): `none` stands for an absent or unparseable
  `updated_at`, `some t` for a parsed instant; `msk_now()` is the `now`
  argument.  This reflects app.py lines 734-745, where parsing feeds a
  single `total_seconds() > CACHE_TTL_SECONDS` comparison.
* A raw ERP order entering `build_cache_from_orders` is represented by
  `Option Order`: `some o` when `build_order_dto`/`serialize_order` succeeds
  producing the serialized DTO `o`, and `none` when it raises (the
  per-order `except` at app.py lines 723-726 skips it).
* Cached order records are the serialized `OrderDTO` dicts (app.py lines
  36-56); `Order` carries its 17 fields.  For such records
  `order_moment_ms` (lines 578-590) always takes the first branch, because
  `moment_ms` is always an int in a DTO; the value 0 is produced by
  `build_order_dto` (line 460) when the timestamp is absent or unparseable.
* Exceptions are modelled with `Except`: the fetch phase of `refresh_cache`
  either yields a raw list or raises.  Python functions returning normally
  are total Lean functions.
-/

/-- The JSON values the cache snapshot uses: null, strings, integers,
arrays and string-keyed objects.  (The snapshot never stores booleans or
floats: every value written by `cache_payload`/`serialize_order` is a
string, an int, null, a list or a dict.) -/
inductive Json where
  | null : Json
  | str (s : String) : Json
  | int (n : Int) : Json
  | arr (items : List Json) : Json
  | obj (fields : List (String × Json)) : Json
deriving Repr

/-- JSON string body escaping: the characters `"` and `\` are escaped with a
backslash, everything else is emitted verbatim (a lossless model of the
serializer's string encoding). -/
def escList : List Char → List Char
  | [] => []
  | c :: t => if c = '"' ∨ c = '\\' then '\\' :: c :: escList t else c :: escList t

/-- A JSON string literal: quote, escaped body, quote. -/
def dumpString (s : String) : List Char := '"' :: (escList s.data ++ ['"'])

/-- The character for a single decimal digit. -/
def digitChar (d : Nat) : Char :=
  match d with
  | 0 => '0' | 1 => '1' | 2 => '2' | 3 => '3' | 4 => '4'
  | 5 => '5' | 6 => '6' | 7 => '7' | 8 => '8' | _ => '9'

/-- The numeric value of a decimal digit character. -/
def digitVal (c : Char) : Nat := c.toNat - '0'.toNat

/-- Little-endian decimal digits of `n`, fuel-driven so that it is
structurally recursive (and hence kernel-computable). -/
def natDigitsAux : Nat → Nat → List Nat
  | 0, _ => []
  | _ + 1, 0 => []
  | fuel + 1, n + 1 => ((n + 1) % 10) :: natDigitsAux fuel ((n + 1) / 10)

/-- Little-endian decimal digits of `n` (equal to `Nat.digits 10 n`). -/
def natDigits (n : Nat) : List Nat := natDigitsAux n n

/-- Decimal notation for a natural number. -/
def dumpNat (n : Nat) : List Char :=
  if n = 0 then ['0'] else ((natDigits n).map digitChar).reverse

/-- Decimal notation for an integer. -/
def dumpInt (n : Int) : List Char :=
  if n < 0 then '-' :: dumpNat n.natAbs else dumpNat n.natAbs

mutual
/-- JSON text for a value (no whitespace, keys in insertion order —
matching the compact output of the serializer used by `write_cache_unlocked`,
app.py lines 663-671). -/
def dumpVal : Json → List Char
  | .null => ['n', 'u', 'l', 'l']
  | .str s => dumpString s
  | .int n => dumpInt n
  | .arr [] => ['[', ']']
  | .arr (x :: t) => '[' :: (dumpVal x ++ dumpItemsRest t)
  | .obj [] => ['{', '}']
  | .obj (kv :: t) => '{' :: (dumpString kv.1 ++ ':' :: (dumpVal kv.2 ++ dumpFieldsRest t))

/-- Remaining array items after the first, each preceded by a comma; ends the
array with a closing bracket. -/
def dumpItemsRest : List Json → List Char
  | [] => [']']
  | y :: t => ',' :: (dumpVal y ++ dumpItemsRest t)

/-- Remaining object fields after the first, each preceded by a comma; ends
the object with a closing brace. -/
def dumpFieldsRest : List (String × Json) → List Char
  | [] => ['}']
  | kv :: t => ',' :: (dumpString kv.1 ++ ':' :: (dumpVal kv.2 ++ dumpFieldsRest t))
end

/-- Serialize a JSON value to text (the model of `orjson.dumps`). -/
def dumps (j : Json) : String := String.mk (dumpVal j)

/-- Parse the body of a JSON string after the opening quote; returns the
decoded characters and the remaining input, or `none` if unterminated. -/
def parseStringRest : List Char → Option (List Char × List Char)
  | [] => none
  | c :: rest =>
    if c = '"' then some ([], rest)
    else if c = '\\' then
      match rest with
      | [] => none
      | e :: rest2 => (parseStringRest rest2).map (fun p => (e :: p.1, p.2))
    else (parseStringRest rest).map (fun p => (c :: p.1, p.2))

/-- Accumulate a run of decimal digits. -/
def parseNatAux (acc : Nat) : List Char → Nat × List Char
  | [] => (acc, [])
  | c :: rest => if c.isDigit then parseNatAux (acc * 10 + digitVal c) rest else (acc, c :: rest)

/-- Parse a natural number (at least one digit). -/
def parseNat : List Char → Option (Nat × List Char)
  | [] => none
  | c :: rest => if c.isDigit then some (parseNatAux (digitVal c) rest) else none

mutual
/-- Parse one JSON value.  `fuel` bounds the recursion depth; `loads` supplies
enough fuel for any input it can represent. -/
def parseVal : Nat → List Char → Option (Json × List Char)
  | 0, _ => none
  | _ + 1, [] => none
  | fuel + 1, c :: rest =>
    if c = 'n' then
      match rest with
      | 'u' :: 'l' :: 'l' :: r => some (.null, r)
      | _ => none
    else if c = '"' then
      (parseStringRest rest).map (fun p => (.str (String.mk p.1), p.2))
    else if c = '-' then
      match parseNat rest with
      | some (n, r) => some (.int (-(n : Int)), r)
      | none => none
    else if c = '[' then
      match rest with
      | ']' :: r => some (.arr [], r)
      | _ => (parseItems fuel rest).map (fun p => (.arr p.1, p.2))
    else if c = '{' then
      match rest with
      | '}' :: r => some (.obj [], r)
      | _ => (parseFields fuel rest).map (fun p => (.obj p.1, p.2))
    else if c.isDigit then
      (parseNat (c :: rest)).map (fun p => ((.int (p.1 : Int)), p.2))
    else none

/-- Parse the items of a non-empty JSON array (after the opening bracket). -/
def parseItems : Nat → List Char → Option (List Json × List Char)
  | 0, _ => none
  | fuel + 1, cs =>
    match parseVal fuel cs with
    | none => none
    | some (v, r) =>
      match r with
      | ',' :: r2 => (parseItems fuel r2).map (fun p => (v :: p.1, p.2))
      | ']' :: r2 => some ([v], r2)
      | _ => none

/-- Parse the fields of a non-empty JSON object (after the opening brace). -/
def parseFields : Nat → List Char → Option (List (String × Json) × List Char)
  | 0, _ => none
  | fuel + 1, cs =>
    match cs with
    | '"' :: rest =>
      (match parseStringRest rest with
       | none => none
       | some (k, r) =>
         match r with
         | ':' :: r2 =>
           (match parseVal fuel r2 with
            | none => none
            | some (v, r3) =>
              match r3 with
              | ',' :: r4 => (parseFields fuel r4).map (fun p => ((String.mk k, v) :: p.1, p.2))
              | '}' :: r4 => some ([(String.mk k, v)], r4)
              | _ => none)
         | _ => none)
    | _ => none
end

/-- Parse a complete JSON document; `none` on any malformed input, including
trailing garbage (the model of `orjson.loads`, whose `JSONDecodeError` is
caught by `load_cache_unlocked`, app.py lines 652-660). -/
def loads (s : String) : Option Json :=
  match parseVal (s.length + 1) s.data with
  | some (j, []) => some j
  | _ => none

mutual
/-- Number of parser frames needed for a value (used to justify `loads`'s
fuel). -/
def jsize : Json → Nat
  | .null => 1
  | .str _ => 1
  | .int _ => 1
  | .arr items => 1 + isize items
  | .obj fields => 1 + fsize fields

/-- Frame count for an array item list. -/
def isize : List Json → Nat
  | [] => 0
  | x :: t => 1 + jsize x + isize t

/-- Frame count for an object field list. -/
def fsize : List (String × Json) → Nat
  | [] => 0
  | (_, v) :: t => 1 + jsize v + fsize t
end

/-- The input does not begin with a decimal digit (so a preceding number
literal cannot be extended). -/
def notDigitStart : List Char → Prop
  | [] => True
  | c :: _ => c.isDigit = false

/-- The serialized `OrderDTO` record cached for each order (app.py lines
36-56, produced by `build_order_dto`/`serialize_order`). -/
structure Order where
  id : String
  name : String
  state : String
  moment : String
  moment_ms : Int
  sum : Int
  sum_display : String
  recipient : String
  phone : Option String
  email : Option String
  delivery_method : String
  city : String
  address : String
  comment : String
  link : String
  day_key : Option String
  day_label : String
deriving DecidableEq, Repr

/-- One bucket of the trailing-week sales rollup: a count and a minor-unit
sum (app.py lines 596-599). -/
structure Bucket where
  count : Nat
  sum : Int
deriving DecidableEq, Repr

/-- The `weekly_sales` dict: new-order and CDEK buckets (app.py lines
593-613). -/
structure Weekly where
  new_orders : Bucket
  cdek_orders : Bucket
deriving DecidableEq, Repr

/-- The `stats` dict of a snapshot (app.py lines 616-626). -/
structure Stats where
  new_orders : Nat
  cdek_orders : Nat
  total_orders : Nat
  weekly_sales : Weekly
deriving DecidableEq, Repr

/-- A cache snapshot: `updated_at`, derived `stats` and the order records
(app.py lines 629-635, `cache_payload`). -/
structure Cache where
  updated_at : String
  stats : Stats
  orders : List Order
deriving DecidableEq, Repr

/-- An optional string field serializes to null or a string. -/
def optStrToJson : Option String → Json
  | none => .null
  | some s => .str s

/-- Reader for an optional string field. -/
def optStrFromJson : Json → Option (Option String)
  | .null => some none
  | .str s => some (some s)
  | _ => none

/-- The JSON object written for one order record: the 17 `OrderDTO` fields in
declaration order (the dict produced by `serialize_order`, app.py line 574). -/
def orderToJson (o : Order) : Json :=
  .obj [("id", .str o.id), ("name", .str o.name), ("state", .str o.state),
        ("moment", .str o.moment), ("moment_ms", .int o.moment_ms), ("sum", .int o.sum),
        ("sum_display", .str o.sum_display), ("recipient", .str o.recipient),
        ("phone", optStrToJson o.phone), ("email", optStrToJson o.email),
        ("delivery_method", .str o.delivery_method), ("city", .str o.city),
        ("address", .str o.address), ("comment", .str o.comment), ("link", .str o.link),
        ("day_key", optStrToJson o.day_key), ("day_label", .str o.day_label)]

/-- Reader for a serialized order record, recovering all 17 defined fields;
the inverse direction of `orderToJson`, used to state that serialization is
lossless field by field. -/
def orderFromJson : Json → Option Order
  | .obj [("id", .str id), ("name", .str name), ("state", .str state),
          ("moment", .str moment), ("moment_ms", .int moment_ms), ("sum", .int sum),
          ("sum_display", .str sum_display), ("recipient", .str recipient),
          ("phone", phoneJ), ("email", emailJ),
          ("delivery_method", .str delivery_method), ("city", .str city),
          ("address", .str address), ("comment", .str comment), ("link", .str link),
          ("day_key", dayKeyJ), ("day_label", .str day_label)] =>
    (optStrFromJson phoneJ).bind fun phone =>
      (optStrFromJson emailJ).bind fun email =>
        (optStrFromJson dayKeyJ).map fun day_key =>
          { id := id, name := name, state := state, moment := moment,
            moment_ms := moment_ms, sum := sum, sum_display := sum_display,
            recipient := recipient, phone := phone, email := email,
            delivery_method := delivery_method, city := city, address := address,
            comment := comment, link := link, day_key := day_key, day_label := day_label }
  | _ => none

/-- Partial inverse of the `Nat → Int` coercion, for reading counts back. -/
def intToNatOpt : Int → Option Nat
  | .ofNat n => some n
  | _ => none

/-- JSON for one weekly bucket. -/
def bucketToJson (b : Bucket) : Json :=
  .obj [("count", .int (b.count : Int)), ("sum", .int b.sum)]

/-- Reader for one weekly bucket. -/
def bucketFromJson : Json → Option Bucket
  | .obj [("count", .int c), ("sum", .int s)] =>
    (intToNatOpt c).map fun count => { count := count, sum := s }
  | _ => none

/-- JSON for the weekly rollup, keys in the order of app.py lines 596-599. -/
def weeklyToJson (w : Weekly) : Json :=
  .obj [("new_orders", bucketToJson w.new_orders), ("cdek_orders", bucketToJson w.cdek_orders)]

/-- Reader for the weekly rollup. -/
def weeklyFromJson : Json → Option Weekly
  | .obj [("new_orders", nj), ("cdek_orders", cj)] =>
    (bucketFromJson nj).bind fun n =>
      (bucketFromJson cj).map fun c => { new_orders := n, cdek_orders := c }
  | _ => none

/-- JSON for the stats dict, keys in the order of app.py lines 616-626. -/
def statsToJson (st : Stats) : Json :=
  .obj [("new_orders", .int (st.new_orders : Int)), ("cdek_orders", .int (st.cdek_orders : Int)),
        ("total_orders", .int (st.total_orders : Int)), ("weekly_sales", weeklyToJson st.weekly_sales)]

/-- Reader for the stats dict. -/
def statsFromJson : Json → Option Stats
  | .obj [("new_orders", .int n), ("cdek_orders", .int c),
          ("total_orders", .int t), ("weekly_sales", wj)] =>
    (intToNatOpt n).bind fun n' =>
      (intToNatOpt c).bind fun c' =>
        (intToNatOpt t).bind fun t' =>
          (weeklyFromJson wj).map fun w =>
            { new_orders := n', cdek_orders := c', total_orders := t', weekly_sales := w }
  | _ => none

/-- JSON array elements for the order list. -/
def ordersToJson (orders : List Order) : List Json := orders.map orderToJson

/-- Reader for the order list. -/
def ordersFromJson : List Json → Option (List Order)
  | [] => some []
  | j :: t =>
    (orderFromJson j).bind fun o =>
      (ordersFromJson t).map fun os => o :: os

/-- The JSON document written for a snapshot: top-level keys `updated_at`,
`stats`, `orders` in the order built by `cache_payload` (app.py lines
629-635). -/
def cacheToJson (c : Cache) : Json :=
  .obj [("updated_at", .str c.updated_at), ("stats", statsToJson c.stats),
        ("orders", .arr (ordersToJson c.orders))]

/-- Reader for a snapshot document. -/
def cacheFromJson : Json → Option Cache
  | .obj [("updated_at", .str u), ("stats", sj), ("orders", .arr oj)] =>
    (statsFromJson sj).bind fun st =>
      (ordersFromJson oj).map fun os => { updated_at := u, stats := st, orders := os }
  | _ => none

/-- The placeholder value used for absent fields (app.py line 23). -/
def EMPTY_VALUE : String := "—"

/-- Snapshot time-to-live in seconds (app.py line 21). -/
def CACHE_TTL_SECONDS : Int := 300

/-- `load_cache_unlocked` (app.py lines 652-660): read and parse the cache
file; `none` on a missing file (`FileNotFoundError`) or undecodable content
(`JSONDecodeError`), never an exception. -/
def load_cache_unlocked : Option String → Option Json
  | none => none
  | some s => loads s

/-- `cache_is_valid` (app.py lines 638-639): the value is a dict containing
an `orders` key. -/
def cache_is_valid : Option Json → Bool
  | some (.obj kvs) => kvs.any (fun kv => kv.1 = "orders")
  | _ => false

/-- `read_cache` (app.py lines 674-679): load under the cache lock and
return the snapshot only if valid, else `None`. -/
def read_cache (fs : Option String) : Option Json :=
  if cache_is_valid (load_cache_unlocked fs) then load_cache_unlocked fs else none

/-- `write_cache`/`write_cache_unlocked` (app.py lines 663-684): serialize
the snapshot and atomically replace the file contents (temp file + fsync +
rename are modelled as one whole-file replacement, which is exactly the
atomicity they provide). -/
def write_cache (c : Cache) : Option String := some (dumps (cacheToJson c))

/-- `cache_is_stale` (app.py lines 734-745).  The pendulum parse of
`updated_at` is modelled by its result: `none` for an absent or unparseable
timestamp, `some t` for a parsed instant in epoch seconds; `now` is
`msk_now()`.  Stale iff unparseable/absent or `elapsed > CACHE_TTL_SECONDS`
(a strict comparison). -/
def cache_is_stale (updated_at_parsed : Option Int) (now : Int) : Bool :=
  match updated_at_parsed with
  | none => true
  | some t => now - t > CACHE_TTL_SECONDS

/-- The dedupe key of a record (app.py lines 690-692): the `id` if
non-empty, otherwise the fallback key `f"{name}-{moment}"`. -/
def dedupe_key (o : Order) : String :=
  if o.id = "" then o.name ++ "-" ++ o.moment else o.id

/-- One step of `dedupe_orders`'s dict building (app.py lines 693-695):
if the key is present, the stored record is replaced in place when the
newcomer has a strictly larger `moment_ms`; otherwise the pair is appended
(Python dicts preserve first-insertion order). -/
def dedupe_insert (seen : List (String × Order)) (k : String) (o : Order) :
    List (String × Order) :=
  match seen with
  | [] => [(k, o)]
  | (k', o') :: rest =>
    if k' = k then (if o.moment_ms > o'.moment_ms then (k', o) else (k', o')) :: rest
    else (k', o') :: dedupe_insert rest k o

/-- The fold step of `dedupe_orders`. -/
def dstep (seen : List (String × Order)) (o : Order) : List (String × Order) :=
  dedupe_insert seen (dedupe_key o) o

/-- `dedupe_orders` (app.py lines 687-696): key every record, keep one
record per key (preferring a strictly newer `moment_ms`), in first-seen
order. -/
def dedupe_orders (orders : List Order) : List Order :=
  (orders.foldl dstep []).map Prod.snd

/-- The replace-or-keep loop of `update_cache_with_order` (app.py lines
704-711): every existing record whose `id` equals the non-empty id of the
incoming payload is replaced by the payload; the flag records whether any
replacement happened. -/
def replace_by_id (p : Order) : List Order → List Order × Bool
  | [] => ([], false)
  | o :: t =>
    let r := replace_by_id p t
    if p.id ≠ "" ∧ o.id = p.id then (p :: r.1, true) else (o :: r.1, r.2)

/-- The pre-dedupe order list of `update_cache_with_order` (app.py lines
704-713): replaced list, with the payload appended when nothing was
replaced. -/
def mergeBase (p : Order) (orders : List Order) : List Order :=
  if (replace_by_id p orders).2 then (replace_by_id p orders).1
  else (replace_by_id p orders).1 ++ [p]

/-- The order-list effect of the incremental merge `update_cache_with_order`
(app.py lines 699-717): replace-or-append by id, then dedupe. -/
def update_orders (p : Order) (orders : List Order) : List Order :=
  dedupe_orders (mergeBase p orders)

/-- Case folding for the alphabets the status labels use: ASCII `A`-`Z` and
Cyrillic `А`-`Я`/`Ё` map to lowercase, everything else is unchanged (the
fragment of `str.casefold` relevant to app.py lines 476-484). -/
def foldChar (c : Char) : Char :=
  if 'A' ≤ c ∧ c ≤ 'Z' then Char.ofNat (c.toNat + 32)
  else if 0x410 ≤ c.toNat ∧ c.toNat ≤ 0x42F then Char.ofNat (c.toNat + 0x20)
  else if c.toNat = 0x401 then Char.ofNat 0x451
  else c

/-- Case-fold a string character by character. -/
def casefold (s : String) : String := String.mk (s.data.map foldChar)

/-- Substring test (Python's `needle in hay`). -/
def hasSubstr : List Char → List Char → Bool
  | [], needle => needle.isPrefixOf []
  | c :: t, needle => needle.isPrefixOf (c :: t) || hasSubstr t needle

/-- `is_cdek_state` (app.py lines 476-477): the case-folded status contains
the substring for the CDEK carrier. -/
def is_cdek_state (state : String) : Bool :=
  hasSubstr (casefold state).data "сдек".data

/-- The new-order keywords of app.py line 484. -/
def NEW_STATE_KEYWORDS : List String := ["нов", "принят", "оплачен", "обработ"]

/-- `is_new_order` (app.py lines 480-484): an empty or placeholder status is
new; otherwise the folded status must contain a new-order keyword and must
not contain the CDEK substring. -/
def is_new_order (state : String) : Bool :=
  if state = "" ∨ state = EMPTY_VALUE then true
  else
    (NEW_STATE_KEYWORDS.any fun w => hasSubstr (casefold state).data w.data)
      && !(hasSubstr (casefold state).data "сдек".data)

/-- `order_moment_ms` (app.py lines 578-590) on a cached DTO record: the
`moment_ms` field is always an int in a serialized `OrderDTO`, so the first
branch (`isinstance(raw, (int, float))`) applies; the later fallbacks
(parsing `moment` or `day_key`) only fire for non-DTO dicts.  The value `0`
is what `build_order_dto` stores when the timestamp is absent or
unparseable (app.py line 460). -/
def order_moment_ms (o : Order) : Int := o.moment_ms

/-- One iteration of the `weekly_sales_stats` loop (app.py lines 600-612):
skip the order when its moment is truthy (non-zero) and before the window
start, otherwise add it to the CDEK bucket if its status is a CDEK status,
else to the new bucket if `is_new_order` holds. -/
def weeklyStep (week_start_ms : Int) (w : Weekly) (o : Order) : Weekly :=
  if order_moment_ms o ≠ 0 ∧ order_moment_ms o < week_start_ms then w
  else if is_cdek_state o.state then
    { w with cdek_orders := { count := w.cdek_orders.count + 1, sum := w.cdek_orders.sum + o.sum } }
  else if is_new_order o.state then
    { w with new_orders := { count := w.new_orders.count + 1, sum := w.new_orders.sum + o.sum } }
  else w

/-- `weekly_sales_stats` (app.py lines 593-613); `week_start_ms` is the
millisecond timestamp of the start of the trailing 7-day window. -/
def weekly_sales_stats (week_start_ms : Int) (orders : List Order) : Weekly :=
  orders.foldl (weeklyStep week_start_ms) ⟨⟨0, 0⟩, ⟨0, 0⟩⟩

/-- One iteration of the `stats_from_orders` counting loop (app.py lines
618-624): always count the order in the total, then in the CDEK count if a
CDEK status, else in the new count if `is_new_order`. -/
def countsStep (s : Stats) (o : Order) : Stats :=
  let s' := { s with total_orders := s.total_orders + 1 }
  if is_cdek_state o.state then { s' with cdek_orders := s'.cdek_orders + 1 }
  else if is_new_order o.state then { s' with new_orders := s'.new_orders + 1 }
  else s'

/-- `stats_from_orders` (app.py lines 616-626): the three counters plus the
weekly rollup. -/
def stats_from_orders (week_start_ms : Int) (orders : List Order) : Stats :=
  { orders.foldl countsStep ⟨0, 0, 0, ⟨⟨0, 0⟩, ⟨0, 0⟩⟩⟩ with
    weekly_sales := weekly_sales_stats week_start_ms orders }

/-- `cache_payload` (app.py lines 629-635): a snapshot dated `now` with
recomputed stats.  `now` is the formatted `msk_now()` string and
`week_start_ms` the ambient week-window start used by the stats. -/
def cache_payload (week_start_ms : Int) (now : String) (orders : List Order) : Cache :=
  { updated_at := now, stats := stats_from_orders week_start_ms orders, orders := orders }

/-- The full incremental merge `update_cache_with_order` (app.py lines
699-717) at the snapshot level: merge the payload into the order list and
rebuild the payload with fresh stats. -/
def update_cache_with_order (week_start_ms : Int) (now : String) (p : Order)
    (orders : List Order) : Cache :=
  cache_payload week_start_ms now (update_orders p orders)

/-- `build_cache_from_orders` (app.py lines 720-731): serialize each raw
order, skipping the ones whose normalization raises (`none`), dedupe, and
build the payload.  Note this always yields a dict with an `orders` key,
even when every record failed. -/
def build_cache_from_orders (week_start_ms : Int) (now : String)
    (raws : List (Option Order)) : Cache :=
  cache_payload week_start_ms now (dedupe_orders (raws.filterMap id))

/-- `refresh_cache` (app.py lines 2039-2061): read the existing snapshot,
then either rebuild from the fetched raw orders (writing the rebuilt
snapshot whenever `cache_is_valid` accepts it, which mirrors line 2046) or,
when the fetch raised, fall back to the previously stored valid snapshot.
Returns the new file state and the returned snapshot value.  The branch
structure, including the `cache_is_valid`-guarded fallback of lines
2052-2056, is kept verbatim. -/
def refresh_cache (fetched : Except Unit (List (Option Order))) (week_start_ms : Int)
    (now : String) (fs : Option String) : Option String × Option Json :=
  match fetched with
  | .error _ => (fs, if cache_is_valid (read_cache fs) then read_cache fs else none)
  | .ok raws =>
    if cache_is_valid (some (cacheToJson (build_cache_from_orders week_start_ms now raws))) then
      (write_cache (build_cache_from_orders week_start_ms now raws),
       some (cacheToJson (build_cache_from_orders week_start_ms now raws)))
    else if cache_is_valid (read_cache fs) then (fs, read_cache fs)
    else (write_cache (build_cache_from_orders week_start_ms now raws),
          some (cacheToJson (build_cache_from_orders week_start_ms now raws)))

/-- A dashboard event subscriber: a bounded queue with capacity `cap` and
buffered payloads `buf` (the `asyncio.Queue(maxsize=10)` of app.py line
2152). -/
structure Subscriber where
  cap : Nat
  buf : List String
deriving DecidableEq, Repr

/-- The `put_nowait`-with-`except QueueFull` of `broadcast_event` (app.py
lines 2033-2036): enqueue when the queue has room, otherwise drop the
payload for this subscriber. -/
def try_put (payload : String) (q : Subscriber) : Subscriber :=
  if q.buf.length < q.cap then { q with buf := q.buf ++ [payload] } else q

/-- `broadcast_event` (app.py lines 2029-2036): one serialized payload is
offered to every registered subscriber in turn; a full queue only affects
that subscriber. -/
def broadcast_event (payload : String) : List Subscriber → List Subscriber
  | [] => []
  | q :: t => try_put payload q :: broadcast_event payload t

/-- Componentwise addition of weekly rollups (spec-side helper for stating
window-independence). -/
def wplus (a b : Weekly) : Weekly :=
  ⟨⟨a.new_orders.count + b.new_orders.count, a.new_orders.sum + b.new_orders.sum⟩,
   ⟨a.cdek_orders.count + b.cdek_orders.count, a.cdek_orders.sum + b.cdek_orders.sum⟩⟩

/-- The weekly-rollup contribution of a single order. -/
def weeklyDelta (ws : Int) (o : Order) : Weekly := weeklyStep ws ⟨⟨0, 0⟩, ⟨0, 0⟩⟩ o

/-- The classification-only contribution of an order to the weekly rollup,
with no week-window test: what "the order is included in the rollup" means. -/
def weekly_contribution (o : Order) : Weekly :=
  if is_cdek_state o.state then ⟨⟨0, 0⟩, ⟨1, o.sum⟩⟩
  else if is_new_order o.state then ⟨⟨1, o.sum⟩, ⟨0, 0⟩⟩
  else ⟨⟨0, 0⟩, ⟨0, 0⟩⟩

/-- The dedupe-dict invariant: every stored key is the dedupe key of its
stored record. -/
def GoodSeen (seen : List (String × Order)) : Prop := ∀ kv ∈ seen, kv.1 = dedupe_key kv.2

/-- A concrete order record with the given id, name, moment, moment_ms,
status and sum (remaining descriptive fields fixed), for concrete
evaluations. -/
def mkOrder (i nm mo : String) (ms : Int) (st : String) (sm : Int) : Order :=
  { id := i, name := nm, state := st, moment := mo, moment_ms := ms, sum := sm,
    sum_display := "0.00 руб.", recipient := "R", phone := none, email := none,
    delivery_method := EMPTY_VALUE, city := EMPTY_VALUE, address := EMPTY_VALUE,
    comment := EMPTY_VALUE, link := "L", day_key := none, day_label := EMPTY_VALUE }

/-- A payload with a non-empty id equal to another record's fallback key. -/
def cexP : Order := mkOrder "A-X" "P" "2026-01-01 10:00" 0 "Новый" 100

/-- A record without an id whose fallback key `name-moment` is `A-X`. -/
def cexQ : Order := mkOrder "" "A" "X" 5 "Новый" 50

/-- A record sharing `cexP`'s id but with different fields. -/
def cexR : Order := mkOrder "A-X" "R" "2026-01-01 09:00" 1 "готов" 70

/-- Two webhook payloads with distinct non-empty ids. -/
def wOrder1 : Order := mkOrder "id1" "N1" "m1" 0 "Новый" 10

/-- Second of the two distinct-id payloads. -/
def wOrder2 : Order := mkOrder "id2" "N2" "m2" 0 "готов" 20

/-- The single order of the previously stored valid snapshot. -/
def priorOrder : Order := mkOrder "a1" "0001" "2026-01-01 09:00" 0 "Новый" 150000

/-- A fresh order normalized successfully during a refresh. -/
def newOrderB : Order := mkOrder "b2" "0002" "2026-01-02 09:00" 0 "Новый" 200

/-- An order whose status string is empty. -/
def emptyStateOrder : Order := mkOrder "e1" "E" "m" 0 "" 7

/-- An order whose status string is the placeholder. -/
def dashStateOrder : Order := mkOrder "e2" "E2" "m" 0 "—" 8

/-- A CDEK order of unknown age (`moment_ms = 0`). -/
def cdekZeroOrder : Order := mkOrder "c1" "C" "m" 0 "Передан в СДЕК" 30

/-- The previously stored valid snapshot used in the refresh scenarios. -/
def priorCache : Cache := cache_payload 0 "2026-01-01 00:00" [priorOrder]

/-- Every JSON value needs at least one parser frame. -/
theorem jsize_pos : ∀ j : Json, 1 ≤ jsize j := by
  intro j
  cases j <;> simp [jsize]

/-- Rebuilding a string from its characters is the identity. -/
theorem string_mk_data (s : String) : String.mk s.data = s := by cases s; rfl

/-- The fuel-driven digit function agrees with `Nat.digits 10` whenever the
fuel dominates the argument. -/
theorem natDigitsAux_eq (fuel : Nat) : ∀ n : Nat, n ≤ fuel → natDigitsAux fuel n = Nat.digits 10 n := by
  induction fuel with
  | zero =>
    intro n hn
    interval_cases n
    simp [natDigitsAux]
  | succ fuel ih =>
    intro n hn
    cases n with
    | zero => simp [natDigitsAux]
    | succ m =>
      rw [natDigitsAux]
      rw [Nat.digits_def' (by norm_num : 1 < 10) (Nat.succ_pos m)]
      congr 1
      apply ih
      have hlt : (m + 1) / 10 < m + 1 := Nat.div_lt_self (Nat.succ_pos m) (by norm_num)
      omega

/-- `natDigits` computes `Nat.digits 10`. -/
theorem natDigits_eq (n : Nat) : natDigits n = Nat.digits 10 n := natDigitsAux_eq n n le_rfl

/-- A number's notation is never empty. -/
theorem dumpNat_ne_nil (n : Nat) : dumpNat n ≠ [] := by
  unfold dumpNat
  split
  · simp
  · rw [natDigits_eq]
    simp only [ne_eq, List.reverse_eq_nil_iff, List.map_eq_nil_iff]
    exact Nat.digits_ne_nil_iff_ne_zero.mpr (by assumption)

/-- Digit characters are digits. -/
theorem digitChar_isDigit {d : Nat} (h : d < 10) : (digitChar d).isDigit = true := by
  interval_cases d <;> decide

/-- `digitVal` inverts `digitChar` on digits. -/
theorem digitVal_digitChar {d : Nat} (h : d < 10) : digitVal (digitChar d) = d := by
  interval_cases d <;> decide

/-- Every character of a number's notation is a digit. -/
theorem dumpNat_mem_isDigit {c : Char} {n : Nat} (h : c ∈ dumpNat n) : c.isDigit = true := by
  unfold dumpNat at h
  split at h
  · simp at h; subst h; decide
  · rw [natDigits_eq] at h
    simp only [List.mem_reverse, List.mem_map] at h
    obtain ⟨d, hd, rfl⟩ := h
    exact digitChar_isDigit (Nat.digits_lt_base (by norm_num) hd)

/-- Parsing an escaped string body recovers the original characters and
leaves the rest untouched. -/
theorem parseStringRest_escList (l rest : List Char) :
    parseStringRest (escList l ++ '"' :: rest) = some (l, rest) := by
  induction l with
  | nil => simp [escList, parseStringRest.eq_def]
  | cons c t ih =>
    by_cases hc : c = '"' ∨ c = '\\'
    · rw [escList, if_pos hc]
      rw [List.cons_append, List.cons_append, parseStringRest.eq_def]
      simp [ih]
    · push_neg at hc
      rw [escList, if_neg (by tauto)]
      rw [List.cons_append, parseStringRest.eq_def]
      simp [hc.1, hc.2, ih]

/-- Accumulating a printed digit run folds the digit values into the
accumulator. -/
theorem parseNatAux_digits (ds : List Nat) (h : ∀ d ∈ ds, d < 10) (acc : Nat) (rest : List Char)
    (hrest : notDigitStart rest) :
    parseNatAux acc (ds.map digitChar ++ rest) = (ds.foldl (fun a d => a * 10 + d) acc, rest) := by
  induction ds generalizing acc with
  | nil =>
    simp only [List.map_nil, List.nil_append, List.foldl_nil]
    cases rest with
    | nil => rfl
    | cons c r => rw [parseNatAux]; rw [if_neg]; simp_all [notDigitStart]
  | cons d ds ih =>
    have hd : d < 10 := h d (by simp)
    simp only [List.map_cons, List.cons_append, List.foldl_cons]
    rw [parseNatAux, if_pos (digitChar_isDigit hd), digitVal_digitChar hd]
    exact ih (fun x hx => h x (by simp [hx])) _

/-- Folding digit values most-significant-first is `Nat.ofDigits`. -/
theorem foldr_eq_ofDigits (L : List Nat) :
    L.foldr (fun d a => a * 10 + d) 0 = Nat.ofDigits 10 L := by
  induction L with
  | nil => simp [Nat.ofDigits]
  | cons d t ih => simp [Nat.ofDigits_cons, ih]; ring

/-- Parsing a printed natural number recovers it, provided the following
input does not begin with a digit. -/
theorem parseNat_dumpNat (n : Nat) (rest : List Char) (hrest : notDigitStart rest) :
    parseNat (dumpNat n ++ rest) = some (n, rest) := by
  unfold dumpNat
  split
  · subst n
    simp only [List.cons_append, List.nil_append]
    rw [parseNat, if_pos (by decide)]
    have h1 : digitVal '0' = 0 := by decide
    rw [h1]
    have h0 := parseNatAux_digits [] (by simp) 0 rest hrest
    simpa using h0
  · rename_i hn
    rw [natDigits_eq]
    have hne : Nat.digits 10 n ≠ [] := Nat.digits_ne_nil_iff_ne_zero.mpr (by assumption)
    obtain ⟨d0, ds, hds⟩ := List.exists_cons_of_ne_nil
      (show (Nat.digits 10 n).reverse ≠ [] by simpa using hne)
    have hmem : ∀ x ∈ (Nat.digits 10 n).reverse, x < 10 := by
      intro x hx
      exact Nat.digits_lt_base (by norm_num) (List.mem_reverse.mp hx)
    have hd0 : d0 < 10 := hmem d0 (by rw [hds]; simp)
    rw [← List.map_reverse, hds]
    simp only [List.map_cons, List.cons_append]
    rw [parseNat, if_pos (digitChar_isDigit hd0), digitVal_digitChar hd0]
    rw [parseNatAux_digits ds (fun x hx => hmem x (by rw [hds]; simp [hx])) d0 rest hrest]
    congr 2
    have key : (Nat.digits 10 n).reverse.foldl (fun a d => a * 10 + d) 0 = n := by
      rw [List.foldl_reverse]
      have h2 := foldr_eq_ofDigits (Nat.digits 10 n)
      simp only [h2]
      exact Nat.ofDigits_digits 10 n
    rw [hds] at key
    simpa using key

/-- `parseVal` on a `null` literal. -/
theorem parseVal_null (fuel : Nat) (r : List Char) :
    parseVal (fuel + 1) ('n' :: 'u' :: 'l' :: 'l' :: r) = some (.null, r) := rfl

/-- `parseVal` on an opening quote defers to the string parser. -/
theorem parseVal_quote (fuel : Nat) (rest : List Char) :
    parseVal (fuel + 1) ('"' :: rest) =
      (parseStringRest rest).map (fun p => (.str (String.mk p.1), p.2)) := rfl

/-- `parseVal` on a minus sign parses a negative number. -/
theorem parseVal_minus (fuel : Nat) (rest : List Char) :
    parseVal (fuel + 1) ('-' :: rest) =
      match parseNat rest with
      | some (n, r) => some (.int (-(n : Int)), r)
      | none => none := rfl

/-- `parseVal` on an empty array literal. -/
theorem parseVal_lbrack_empty (fuel : Nat) (r : List Char) :
    parseVal (fuel + 1) ('[' :: ']' :: r) = some (.arr [], r) := rfl

/-- `parseVal` on a non-empty array defers to the item parser. -/
theorem parseVal_lbrack_cons (fuel : Nat) (c : Char) (cs : List Char) (h : c ≠ ']') :
    parseVal (fuel + 1) ('[' :: c :: cs) =
      (parseItems fuel (c :: cs)).map (fun p => (.arr p.1, p.2)) := by
  have key : parseVal (fuel + 1) ('[' :: c :: cs) =
      (match c :: cs with
       | ']' :: r => some (Json.arr [], r)
       | _ => (parseItems fuel (c :: cs)).map (fun p => (Json.arr p.1, p.2))) := rfl
  rw [key]
  split
  · rename_i heq
    injection heq with h1 h2
    exact absurd h1 h
  · rfl

/-- `parseVal` on an empty object literal. -/
theorem parseVal_lbrace_empty (fuel : Nat) (r : List Char) :
    parseVal (fuel + 1) ('{' :: '}' :: r) = some (.obj [], r) := rfl

/-- `parseVal` on a non-empty object defers to the field parser. -/
theorem parseVal_lbrace_cons (fuel : Nat) (c : Char) (cs : List Char) (h : c ≠ '}') :
    parseVal (fuel + 1) ('{' :: c :: cs) =
      (parseFields fuel (c :: cs)).map (fun p => (.obj p.1, p.2)) := by
  have key : parseVal (fuel + 1) ('{' :: c :: cs) =
      (match c :: cs with
       | '}' :: r => some (Json.obj [], r)
       | _ => (parseFields fuel (c :: cs)).map (fun p => (Json.obj p.1, p.2))) := rfl
  rw [key]
  split
  · rename_i heq
    injection heq with h1 h2
    exact absurd h1 h
  · rfl

/-- A digit character is none of the JSON structural starters. -/
theorem isDigit_ne (c : Char) (hc : c.isDigit = true) :
    c ≠ 'n' ∧ c ≠ '"' ∧ c ≠ '-' ∧ c ≠ '[' ∧ c ≠ '{' ∧ c ≠ ']' ∧ c ≠ '}' ∧ c ≠ ',' := by
  refine ⟨?_, ?_, ?_, ?_, ?_, ?_, ?_, ?_⟩ <;>
    (intro h; subst h; simp [Char.isDigit] at hc)

/-- `parseVal` on a leading digit parses a number. -/
theorem parseVal_digit (fuel : Nat) (c : Char) (rest : List Char) (hc : c.isDigit = true) :
    parseVal (fuel + 1) (c :: rest) =
      (parseNat (c :: rest)).map (fun p => ((.int (p.1 : Int)), p.2)) := by
  obtain ⟨h1, h2, h3, h4, h5, _, _, _⟩ := isDigit_ne c hc
  simp only [parseVal, h1, h2, h3, h4, h5, hc, if_false, if_true, reduceIte]

/-- Printed values start with a character that cannot close an array or an
object. -/
theorem dumpVal_head : ∀ j : Json, ∃ c cs, dumpVal j = c :: cs ∧ c ≠ ']' ∧ c ≠ '}' := by
  intro j
  cases j with
  | null => exact ⟨'n', _, rfl, by decide, by decide⟩
  | str s => exact ⟨'"', _, rfl, by decide, by decide⟩
  | int n =>
    simp only [dumpVal, dumpInt]
    split
    · exact ⟨'-', _, rfl, by decide, by decide⟩
    · cases hd : dumpNat n.natAbs with
      | nil => exact absurd hd (dumpNat_ne_nil _)
      | cons c cs =>
        have hdig : c.isDigit = true := dumpNat_mem_isDigit (by rw [hd]; simp)
        obtain ⟨_, _, _, _, _, h6, h7, _⟩ := isDigit_ne c hdig
        exact ⟨c, cs, rfl, h6, h7⟩
  | arr items =>
    cases items with
    | nil => exact ⟨'[', _, rfl, by decide, by decide⟩
    | cons x t => exact ⟨'[', _, rfl, by decide, by decide⟩
  | obj fields =>
    cases fields with
    | nil => exact ⟨'{', _, rfl, by decide, by decide⟩
    | cons kv t => exact ⟨'{', _, rfl, by decide, by decide⟩

/-- The parser inverts the printer: with enough fuel, parsing a printed
value (or printed item/field tail) consumes exactly the printed text and
returns the original value. -/
theorem parse_dump (fuel : Nat) :
    (∀ j rest, jsize j ≤ fuel → notDigitStart rest →
       parseVal fuel (dumpVal j ++ rest) = some (j, rest)) ∧
    (∀ x t rest, isize (x :: t) ≤ fuel →
       parseItems fuel ((dumpVal x ++ dumpItemsRest t) ++ rest) = some (x :: t, rest)) ∧
    (∀ k v t rest, fsize ((k, v) :: t) ≤ fuel →
       parseFields fuel ((dumpString k ++ ':' :: (dumpVal v ++ dumpFieldsRest t)) ++ rest) =
         some ((k, v) :: t, rest)) := by
  induction fuel with
  | zero =>
    refine ⟨?_, ?_, ?_⟩
    · intro j rest hsize _
      exact absurd hsize (by have := jsize_pos j; omega)
    · intro x t rest hsize
      simp [isize] at hsize
    · intro k v t rest hsize
      simp [fsize] at hsize
  | succ fuel ih =>
    obtain ⟨ihv, ihi, ihf⟩ := ih
    refine ⟨?_, ?_, ?_⟩
    · intro j rest hsize hrest
      cases j with
      | null => exact parseVal_null fuel rest
      | str s =>
        have h1 : dumpVal (.str s) ++ rest = '"' :: (escList s.data ++ ('"' :: rest)) := by
          simp [dumpVal, dumpString]
        rw [h1, parseVal_quote, parseStringRest_escList]
        simp [string_mk_data]
      | int n =>
        rcases lt_or_ge n 0 with hn | hn
        · have h1 : dumpVal (.int n) ++ rest = '-' :: (dumpNat n.natAbs ++ rest) := by
            simp [dumpVal, dumpInt, if_pos hn]
          rw [h1, parseVal_minus, parseNat_dumpNat _ _ hrest]
          show some (Json.int (-(n.natAbs : Int)), rest) = some (Json.int n, rest)
          have h2 : (-(n.natAbs : Int)) = n := by omega
          rw [h2]
        · cases hd : dumpNat n.natAbs with
          | nil => exact absurd hd (dumpNat_ne_nil _)
          | cons c cs =>
            have hdig : c.isDigit = true := dumpNat_mem_isDigit (by rw [hd]; simp)
            have h1 : dumpVal (.int n) ++ rest = c :: (cs ++ rest) := by
              simp [dumpVal, dumpInt, if_neg (by omega : ¬ n < 0), hd]
            rw [h1, parseVal_digit fuel c _ hdig]
            have h2 : c :: (cs ++ rest) = dumpNat n.natAbs ++ rest := by rw [hd]; simp
            rw [h2, parseNat_dumpNat _ _ hrest]
            show some (Json.int ((n.natAbs : Int)), rest) = some (Json.int n, rest)
            have h3 : ((n.natAbs : Int)) = n := by omega
            rw [h3]
      | arr items =>
        cases items with
        | nil =>
          have h1 : dumpVal (.arr []) ++ rest = '[' :: ']' :: rest := by
            simp [dumpVal]
          rw [h1, parseVal_lbrack_empty]
        | cons x t =>
          obtain ⟨c, cs, hc, hne, _⟩ := dumpVal_head x
          have h1 : dumpVal (.arr (x :: t)) ++ rest =
              '[' :: (c :: (cs ++ (dumpItemsRest t ++ rest))) := by
            simp [dumpVal, hc]
          rw [h1, parseVal_lbrack_cons fuel c _ hne]
          have h2 : c :: (cs ++ (dumpItemsRest t ++ rest)) =
              (dumpVal x ++ dumpItemsRest t) ++ rest := by
            rw [hc]; simp
          rw [h2, ihi x t rest (by simp only [jsize] at hsize; omega)]
          rfl
      | obj fields =>
        cases fields with
        | nil =>
          have h1 : dumpVal (.obj []) ++ rest = '{' :: '}' :: rest := by
            simp [dumpVal]
          rw [h1, parseVal_lbrace_empty]
        | cons kv t =>
          obtain ⟨k, v⟩ := kv
          have h1 : dumpVal (.obj ((k, v) :: t)) ++ rest =
              '{' :: ('"' :: ((escList k.data ++ ['"'] ++
                (':' :: (dumpVal v ++ dumpFieldsRest t))) ++ rest)) := by
            simp [dumpVal, dumpString]
          rw [h1]
          rw [parseVal_lbrace_cons fuel '"' _ (by decide)]
          have h2 : '"' :: ((escList k.data ++ ['"'] ++
              (':' :: (dumpVal v ++ dumpFieldsRest t))) ++ rest) =
              (dumpString k ++ ':' :: (dumpVal v ++ dumpFieldsRest t)) ++ rest := by
            simp [dumpString]
          rw [h2, ihf k v t rest (by simp only [jsize] at hsize; omega)]
          rfl
    · intro x t rest hsize
      have hkey : ∀ cs : List Char, parseItems (fuel + 1) cs =
          (match parseVal fuel cs with
           | none => none
           | some (v, r) =>
             match r with
             | ',' :: r2 => (parseItems fuel r2).map (fun p => (v :: p.1, p.2))
             | ']' :: r2 => some ([v], r2)
             | _ => none) := fun _ => rfl
      cases t with
      | nil =>
        have h1 : (dumpVal x ++ dumpItemsRest []) ++ rest = dumpVal x ++ (']' :: rest) := by
          simp [dumpItemsRest]
        rw [h1, hkey]
        rw [ihv x (']' :: rest) (by simp only [isize] at hsize; omega) (by simp [notDigitStart])]
        rfl
      | cons y t' =>
        have h1 : (dumpVal x ++ dumpItemsRest (y :: t')) ++ rest =
            dumpVal x ++ (',' :: ((dumpVal y ++ dumpItemsRest t') ++ rest)) := by
          simp [dumpItemsRest]
        rw [h1, hkey]
        rw [ihv x _ (by simp only [isize] at hsize; omega) (by simp [notDigitStart])]
        simp only []
        rw [ihi y t' rest (by simp only [isize] at hsize ⊢; omega)]
        rfl
    · intro k v t rest hsize
      have hkey : ∀ rest' : List Char, parseFields (fuel + 1) ('"' :: rest') =
          (match parseStringRest rest' with
           | none => none
           | some (k, r) =>
             match r with
             | ':' :: r2 =>
               (match parseVal fuel r2 with
                | none => none
                | some (v, r3) =>
                  match r3 with
                  | ',' :: r4 =>
                    (parseFields fuel r4).map (fun p => ((String.mk k, v) :: p.1, p.2))
                  | '}' :: r4 => some ([(String.mk k, v)], r4)
                  | _ => none)
             | _ => none) := fun _ => rfl
      cases t with
      | nil =>
        have h1 : (dumpString k ++ ':' :: (dumpVal v ++ dumpFieldsRest [])) ++ rest =
            '"' :: (escList k.data ++ ('"' :: (':' :: (dumpVal v ++ ('}' :: rest))))) := by
          simp [dumpString, dumpFieldsRest]
        rw [h1, hkey, parseStringRest_escList]
        simp only []
        rw [ihv v _ (by simp only [fsize] at hsize; omega) (by simp [notDigitStart])]
        simp [string_mk_data]
      | cons kv2 t' =>
        obtain ⟨k2, v2⟩ := kv2
        have h1 : (dumpString k ++ ':' :: (dumpVal v ++ dumpFieldsRest ((k2, v2) :: t'))) ++ rest =
            '"' :: (escList k.data ++ ('"' :: (':' :: (dumpVal v ++
              (',' :: ((dumpString k2 ++ ':' :: (dumpVal v2 ++ dumpFieldsRest t')) ++ rest)))))) := by
          simp [dumpString, dumpFieldsRest]
        rw [h1, hkey, parseStringRest_escList]
        simp only []
        rw [ihv v _ (by simp only [fsize] at hsize; omega) (by simp [notDigitStart])]
        simp only []
        rw [ihf k2 v2 t' rest (by simp only [fsize] at hsize ⊢; omega)]
        simp [string_mk_data]

/-- Printed numbers are non-empty. -/
theorem dumpNat_length_pos (n : Nat) : 1 ≤ (dumpNat n).length := by
  cases h : dumpNat n with
  | nil => exact absurd h (dumpNat_ne_nil n)
  | cons c t => simp

/-- Printed integers are non-empty. -/
theorem dumpInt_length_pos (n : Int) : 1 ≤ (dumpInt n).length := by
  unfold dumpInt
  split
  · simp
  · exact dumpNat_length_pos _

mutual
/-- A value's frame count is bounded by its printed length. -/
theorem jsize_le_len : ∀ j : Json, jsize j ≤ (dumpVal j).length
  | .null => by simp [jsize, dumpVal]
  | .str s => by simp [jsize, dumpVal, dumpString]
  | .int n => by
      have h := dumpInt_length_pos n
      simpa [jsize, dumpVal] using h
  | .arr [] => by simp [jsize, isize, dumpVal]
  | .arr (x :: t) => by
      have h1 := jsize_le_len x
      have h2 := isize_lt_len t
      simp only [jsize, isize, dumpVal, List.length_cons, List.length_append]
      omega
  | .obj [] => by simp [jsize, fsize, dumpVal]
  | .obj ((k, v) :: t) => by
      have h1 := jsize_le_len v
      have h2 := fsize_lt_len t
      simp only [jsize, fsize, dumpVal, List.length_cons, List.length_append, dumpString]
      omega

/-- An item tail's frame count is below its printed length. -/
theorem isize_lt_len : ∀ t : List Json, isize t + 1 ≤ (dumpItemsRest t).length
  | [] => by simp [isize, dumpItemsRest]
  | y :: t => by
      have h1 := jsize_le_len y
      have h2 := isize_lt_len t
      simp only [isize, dumpItemsRest, List.length_cons, List.length_append]
      omega

/-- A field tail's frame count is below its printed length. -/
theorem fsize_lt_len : ∀ t : List (String × Json), fsize t + 1 ≤ (dumpFieldsRest t).length
  | [] => by simp [fsize, dumpFieldsRest]
  | (k, v) :: t => by
      have h1 := jsize_le_len v
      have h2 := fsize_lt_len t
      simp only [fsize, dumpFieldsRest, List.length_cons, List.length_append, dumpString]
      omega
end

/-- Deserializing a serialized JSON value gives it back: the byte-level
round trip of the snapshot file format. -/
theorem loads_dumps (j : Json) : loads (dumps j) = some j := by
  unfold loads dumps
  have hlen : (String.mk (dumpVal j)).length = (dumpVal j).length := rfl
  have hdata : (String.mk (dumpVal j)).data = dumpVal j := rfl
  rw [hlen, hdata]
  have hfuel : jsize j ≤ (dumpVal j).length + 1 := by
    have := jsize_le_len j
    omega
  have h := (parse_dump ((dumpVal j).length + 1)).1 j [] hfuel (by simp [notDigitStart])
  rw [List.append_nil] at h
  rw [h]

/-- Reading back a serialized order record recovers all 17 fields. -/
theorem orderFromJson_orderToJson (o : Order) : orderFromJson (orderToJson o) = some o := by
  obtain ⟨id, name, state, moment, moment_ms, sum, sum_display, recipient,
    phone, email, delivery_method, city, address, comment, link, day_key, day_label⟩ := o
  cases phone <;> cases email <;> cases day_key <;> rfl

/-- Reading back a serialized weekly bucket recovers it. -/
theorem bucketFromJson_bucketToJson (b : Bucket) : bucketFromJson (bucketToJson b) = some b := by
  obtain ⟨c, s⟩ := b
  rfl

/-- Reading back a serialized weekly rollup recovers it. -/
theorem weeklyFromJson_weeklyToJson (w : Weekly) : weeklyFromJson (weeklyToJson w) = some w := by
  obtain ⟨⟨nc, ns⟩, ⟨cc, cs⟩⟩ := w
  rfl

/-- Reading back serialized stats recovers them. -/
theorem statsFromJson_statsToJson (st : Stats) : statsFromJson (statsToJson st) = some st := by
  obtain ⟨n, c, t, ⟨⟨nc, ns⟩, ⟨cc, cs⟩⟩⟩ := st
  rfl

/-- Reading back a serialized order list recovers it. -/
theorem ordersFromJson_ordersToJson (orders : List Order) :
    ordersFromJson (ordersToJson orders) = some orders := by
  induction orders with
  | nil => rfl
  | cons o t ih =>
    simp only [ordersToJson, List.map_cons, ordersFromJson, orderFromJson_orderToJson,
      Option.bind_some]
    simp only [ordersToJson] at ih
    rw [ih]
    rfl

/-- Reading back a serialized snapshot recovers every defined field. -/
theorem cacheFromJson_cacheToJson (c : Cache) : cacheFromJson (cacheToJson c) = some c := by
  obtain ⟨u, st, os⟩ := c
  simp only [cacheToJson, cacheFromJson, statsFromJson_statsToJson, Option.bind_some,
    ordersFromJson_ordersToJson]
  rfl

/-- A snapshot document built by `cacheToJson` always carries the `orders`
key, so `cache_is_valid` accepts it. -/
theorem cache_is_valid_toJson (c : Cache) : cache_is_valid (some (cacheToJson c)) = true := rfl
theorem dedupe_insert_keys (seen : List (String × Order)) (k : String) (o : Order) :
    (dedupe_insert seen k o).map Prod.fst =
      if k ∈ seen.map Prod.fst then seen.map Prod.fst else seen.map Prod.fst ++ [k] := by
  induction seen with
  | nil => simp [dedupe_insert]
  | cons kv rest ih =>
    obtain ⟨k', o'⟩ := kv
    by_cases hk : k' = k
    · subst hk
      have h0 : dedupe_insert ((k', o') :: rest) k' o =
          (if o.moment_ms > o'.moment_ms then (k', o) else (k', o')) :: rest := by
        simp [dedupe_insert]
      rw [h0, List.map_cons]
      have h1 : (if o.moment_ms > o'.moment_ms then (k', o) else (k', o')).1 = k' := by
        split <;> rfl
      rw [h1]
      simp
    · simp only [dedupe_insert, if_neg hk, List.map_cons, ih]
      by_cases hmem : k ∈ rest.map Prod.fst
      · simp [hmem, Ne.symm hk]
      · simp [hmem, Ne.symm hk]

theorem dedupe_insert_mem (seen : List (String × Order)) (k : String) (o : Order) :
    ∀ kv ∈ dedupe_insert seen k o, kv ∈ seen ∨ kv = (k, o) := by
  induction seen with
  | nil => intro kv hkv; simp [dedupe_insert] at hkv; simp [hkv]
  | cons kv' rest ih =>
    obtain ⟨k', o'⟩ := kv'
    intro kv hkv
    by_cases hk : k' = k
    · subst hk
      simp only [dedupe_insert, if_pos rfl] at hkv
      rcases List.mem_cons.mp hkv with h | h
      · split at h
        · right; exact h
        · left; rw [h]; simp
      · left; exact List.mem_cons_of_mem _ h
    · simp only [dedupe_insert, if_neg hk] at hkv
      rcases List.mem_cons.mp hkv with h | h
      · left; rw [h]; simp
      · rcases ih kv h with h2 | h2
        · left; exact List.mem_cons_of_mem _ h2
        · right; exact h2
  
theorem dedupe_insert_good {seen : List (String × Order)} {k : String} {o : Order}
    (h : GoodSeen seen) (hk : k = dedupe_key o) : GoodSeen (dedupe_insert seen k o) := by
  intro kv hkv
  rcases dedupe_insert_mem seen k o kv hkv with hm | hm
  · exact h kv hm
  · subst hm; exact hk

theorem dedupe_insert_nodup {seen : List (String × Order)} (k : String) (o : Order)
    (h : (seen.map Prod.fst).Nodup) : ((dedupe_insert seen k o).map Prod.fst).Nodup := by
  rw [dedupe_insert_keys]
  split
  · exact h
  · rename_i hmem
    simp only [List.nodup_append, List.nodup_cons, List.not_mem_nil, not_false_iff,
      List.nodup_nil, and_true, List.disjoint_singleton]
    exact ⟨h, by simpa using hmem⟩

-- fold lemmas
theorem dfold_good {seen : List (String × Order)} (h : GoodSeen seen) (orders : List Order) :
    GoodSeen (orders.foldl dstep seen) := by
  induction orders generalizing seen with
  | nil => exact h
  | cons o t ih => exact ih (dedupe_insert_good h rfl)

theorem dfold_nodup {seen : List (String × Order)} (h : (seen.map Prod.fst).Nodup)
    (orders : List Order) : ((orders.foldl dstep seen).map Prod.fst).Nodup := by
  induction orders generalizing seen with
  | nil => exact h
  | cons o t ih => exact ih (dedupe_insert_nodup _ _ h)

theorem dfold_mem {seen : List (String × Order)} (orders : List Order) :
    ∀ kv ∈ orders.foldl dstep seen, kv ∈ seen ∨ kv.2 ∈ orders := by
  induction orders generalizing seen with
  | nil => intro kv h; exact Or.inl h
  | cons o t ih =>
    intro kv h
    rcases @ih (dstep seen o) kv h with hm | hm
    · rcases dedupe_insert_mem seen (dedupe_key o) o kv hm with h2 | h2
      · exact Or.inl h2
      · right; subst h2; simp
    · right; simp [hm]

theorem dedupe_insert_keys_sub {seen : List (String × Order)} (k : String) (o : Order) :
    seen.map Prod.fst ⊆ (dedupe_insert seen k o).map Prod.fst ∧
      k ∈ (dedupe_insert seen k o).map Prod.fst := by
  rw [dedupe_insert_keys]
  split
  · rename_i hmem
    exact ⟨fun x hx => hx, hmem⟩
  · constructor
    · intro x hx; simp [hx]
    · simp

theorem dfold_keys_mono {seen : List (String × Order)} (orders : List Order) :
    seen.map Prod.fst ⊆ (orders.foldl dstep seen).map Prod.fst := by
  induction orders generalizing seen with
  | nil => exact fun x hx => hx
  | cons o t ih =>
    intro x hx
    exact ih ((dedupe_insert_keys_sub (dedupe_key o) o).1 hx)

theorem dfold_keys_mem {seen : List (String × Order)} {p : Order} {orders : List Order}
    (h : p ∈ orders) : dedupe_key p ∈ (orders.foldl dstep seen).map Prod.fst := by
  induction orders generalizing seen with
  | nil => simp at h
  | cons o t ih =>
    rcases List.mem_cons.mp h with rfl | hm
    · exact dfold_keys_mono t ((dedupe_insert_keys_sub (dedupe_key p) p).2)
    · exact ih hm

theorem dedupe_insert_notmem {seen : List (String × Order)} {k : String} (o : Order)
    (h : k ∉ seen.map Prod.fst) : dedupe_insert seen k o = seen ++ [(k, o)] := by
  induction seen with
  | nil => simp [dedupe_insert]
  | cons kv rest ih =>
    obtain ⟨k', o'⟩ := kv
    simp only [List.map_cons, List.mem_cons, not_or] at h
    have hne : k' ≠ k := fun he => h.1 he.symm
    simp only [dedupe_insert, if_neg hne, List.cons_append]
    rw [ih h.2]

theorem dfold_fresh {seen : List (String × Order)} (orders : List Order)
    (hfresh : ∀ o ∈ orders, dedupe_key o ∉ seen.map Prod.fst)
    (hnd : (orders.map dedupe_key).Nodup) :
    orders.foldl dstep seen = seen ++ orders.map (fun o => (dedupe_key o, o)) := by
  induction orders generalizing seen with
  | nil => simp
  | cons o t ih =>
    simp only [List.foldl_cons, List.map_cons]
    rw [show dstep seen o = dedupe_insert seen (dedupe_key o) o from rfl,
      dedupe_insert_notmem o (hfresh o (by simp))]
    rw [ih]
    · simp
    · intro o' ho'
      simp only [List.map_append, List.map_cons, List.map_nil]
      simp only [List.mem_append, List.mem_singleton, not_or]
      refine ⟨hfresh o' (by simp [ho']), ?_⟩
      simp only [List.map_cons, List.nodup_cons] at hnd
      intro he
      have : dedupe_key o' ∈ t.map dedupe_key := by
        simp only [List.mem_map]
        exact ⟨o', ho', rfl⟩
      rw [he] at this
      exact hnd.1 this
    · simp only [List.map_cons, List.nodup_cons] at hnd
      exact hnd.2

theorem dedupe_orders_nodup_id (orders : List Order)
    (hnd : (orders.map dedupe_key).Nodup) : dedupe_orders orders = orders := by
  unfold dedupe_orders
  rw [dfold_fresh orders (by simp) hnd]
  simp only [List.nil_append, List.map_map]
  have h1 : (Prod.snd ∘ fun o : Order => (dedupe_key o, o)) = id := rfl
  rw [h1, List.map_id]

theorem dedupe_mem_orig {o' : Order} {orders : List Order}
    (h : o' ∈ dedupe_orders orders) : o' ∈ orders := by
  unfold dedupe_orders at h
  simp only [List.mem_map] at h
  obtain ⟨kv, hkv, rfl⟩ := h
  rcases dfold_mem orders kv hkv with hm | hm
  · simp at hm
  · exact hm

theorem goodseen_keys {A : List (String × Order)} (h : GoodSeen A) :
    A.map (fun kv => dedupe_key kv.2) = A.map Prod.fst := by
  induction A with
  | nil => rfl
  | cons kv rest ih =>
    simp only [List.map_cons]
    rw [← h kv (by simp)]
    congr 1
    exact ih (fun kv' hkv' => h kv' (by simp [hkv']))

theorem dedupe_key_nodup (orders : List Order) :
    ((dedupe_orders orders).map dedupe_key).Nodup := by
  unfold dedupe_orders
  have hgood : GoodSeen (orders.foldl dstep []) := dfold_good (by intro kv h; simp at h) orders
  have hnd : ((orders.foldl dstep []).map Prod.fst).Nodup := dfold_nodup (by simp) orders
  rw [List.map_map]
  have : ((orders.foldl dstep []).map (dedupe_key ∘ Prod.snd)) =
      (orders.foldl dstep []).map Prod.fst := by
    have h2 := goodseen_keys hgood
    simpa using h2
  rw [this]
  exact hnd

theorem dedupe_key_mem {p : Order} {orders : List Order} (h : p ∈ orders) :
    ∃ o' ∈ dedupe_orders orders, dedupe_key o' = dedupe_key p := by
  have hk : dedupe_key p ∈ (orders.foldl dstep []).map Prod.fst := dfold_keys_mem h
  simp only [List.mem_map] at hk
  obtain ⟨kv, hkv, hfst⟩ := hk
  have hgood : GoodSeen (orders.foldl dstep []) := dfold_good (by intro kv h; simp at h) orders
  refine ⟨kv.2, ?_, ?_⟩
  · unfold dedupe_orders
    simp only [List.mem_map]
    exact ⟨kv, hkv, rfl⟩
  · rw [← hgood kv hkv, hfst]

-- replace_by_id lemmas
theorem replace_mem {p : Order} {l : List Order} (hp : p.id ≠ "") :
    ∀ o ∈ (replace_by_id p l).1, o = p ∨ (o ∈ l ∧ o.id ≠ p.id) := by
  induction l with
  | nil => intro o h; simp [replace_by_id] at h
  | cons q t ih =>
    intro o h
    simp only [replace_by_id] at h
    split at h
    · rcases List.mem_cons.mp h with rfl | hm
      · exact Or.inl rfl
      · rcases ih o hm with h2 | h2
        · exact Or.inl h2
        · exact Or.inr ⟨List.mem_cons_of_mem _ h2.1, h2.2⟩
    · rename_i hcond
      rcases List.mem_cons.mp h with rfl | hm
      · exact Or.inr ⟨by simp, fun hid => hcond ⟨hp, hid⟩⟩
      · rcases ih o hm with h2 | h2
        · exact Or.inl h2
        · exact Or.inr ⟨List.mem_cons_of_mem _ h2.1, h2.2⟩

theorem replace_flag_imp {p : Order} {l : List Order}
    (h : (replace_by_id p l).2 = true) : p ∈ (replace_by_id p l).1 := by
  induction l with
  | nil => simp [replace_by_id] at h
  | cons q t ih =>
    simp only [replace_by_id] at h ⊢
    split at h
    · rename_i hcond
      rw [if_pos hcond]
      simp
    · rename_i hcond
      rw [if_neg hcond]
      exact List.mem_cons_of_mem _ (ih h)

theorem replace_flag_of_mem {p o : Order} {l : List Order} (hp : p.id ≠ "")
    (ho : o ∈ l) (hid : o.id = p.id) : (replace_by_id p l).2 = true := by
  induction l with
  | nil => simp at ho
  | cons q t ih =>
    simp only [replace_by_id]
    rcases List.mem_cons.mp ho with rfl | hm
    · rw [if_pos ⟨hp, hid⟩]
    · split
      · rfl
      · exact ih hm

theorem replace_nomatch {p : Order} {l : List Order}
    (h : ∀ o ∈ l, ¬(p.id ≠ "" ∧ o.id = p.id)) : replace_by_id p l = (l, false) := by
  induction l with
  | nil => rfl
  | cons q t ih =>
    simp only [replace_by_id]
    rw [if_neg (h q (by simp)), ih (fun o ho => h o (List.mem_cons_of_mem _ ho))]

theorem replace_id_fix {p : Order} {l : List Order}
    (h : ∀ o ∈ l, (p.id ≠ "" ∧ o.id = p.id) → o = p) : (replace_by_id p l).1 = l := by
  induction l with
  | nil => rfl
  | cons q t ih =>
    simp only [replace_by_id]
    split
    · rename_i hcond
      have hqp : q = p := h q (by simp) hcond
      rw [hqp]
      simp only [List.cons.injEq, true_and]
      exact ih (fun o ho hc => h o (List.mem_cons_of_mem _ ho) hc)
    · simp only [List.cons.injEq, true_and]
      exact ih (fun o ho hc => h o (List.mem_cons_of_mem _ ho) hc)

theorem mergeBase_mem {p : Order} {l : List Order} (hp : p.id ≠ "") :
    ∀ o ∈ mergeBase p l, o = p ∨ (o ∈ l ∧ o.id ≠ p.id) := by
  intro o h
  unfold mergeBase at h
  split at h
  · exact replace_mem hp o h
  · rcases List.mem_append.mp h with hm | hm
    · exact replace_mem hp o hm
    · simp only [List.mem_singleton] at hm
      exact Or.inl hm

theorem mergeBase_self {p : Order} {l : List Order} : p ∈ mergeBase p l := by
  unfold mergeBase
  split
  · rename_i hflag
    exact replace_flag_imp hflag
  · simp

theorem dedupe_key_id {o : Order} (h : o.id ≠ "") : dedupe_key o = o.id := by
  unfold dedupe_key
  rw [if_neg h]

-- C3 main lemma
theorem update_orders_idem (p : Order) (S : List Order) (hp : p.id ≠ "")
    (hS : ∀ q ∈ S, q.id = "" → q.name ++ "-" ++ q.moment ≠ p.id) :
    update_orders p (update_orders p S) = update_orders p S ∧
    p ∈ update_orders p S ∧
    (∀ r ∈ update_orders p S, r.id = p.id → r = p) := by
  have keyp : dedupe_key p = p.id := dedupe_key_id hp
  -- every element of the merge base with key p.id is p
  have HM : ∀ o ∈ mergeBase p S, dedupe_key o = p.id → o = p := by
    intro o hmem hkey
    rcases mergeBase_mem hp o hmem with h | ⟨hmS, hneq⟩
    · exact h
    · by_cases hoid : o.id = ""
      · exact absurd hkey (by rw [dedupe_key, if_pos hoid]; exact hS o hmS hoid)
      · exact absurd hkey (by rw [dedupe_key_id hoid]; exact hneq)
  set L1 := update_orders p S with hL1
  have hL1mem : ∀ o ∈ L1, o ∈ mergeBase p S := fun o ho => dedupe_mem_orig ho
  have hL1key : ∀ o ∈ L1, dedupe_key o = p.id → o = p := fun o ho hk => HM o (hL1mem o ho) hk
  have hpL1 : p ∈ L1 := by
    obtain ⟨o', ho', hko'⟩ := @dedupe_key_mem p (mergeBase p S) mergeBase_self
    have : o' = p := hL1key o' ho' (by rw [hko', keyp])
    rwa [← this]
  have hnd : (L1.map dedupe_key).Nodup := dedupe_key_nodup _
  have hIdFix : ∀ o ∈ L1, (p.id ≠ "" ∧ o.id = p.id) → o = p := by
    intro o ho ⟨_, hid⟩
    have hoid : o.id ≠ "" := by rw [hid]; exact hp
    exact hL1key o ho (by rw [dedupe_key_id hoid, hid])
  have hrep1 : (replace_by_id p L1).1 = L1 := replace_id_fix hIdFix
  have hrep2 : (replace_by_id p L1).2 = true := replace_flag_of_mem hp hpL1 rfl
  have hbase : mergeBase p L1 = L1 := by
    unfold mergeBase
    rw [if_pos hrep2, hrep1]
  refine ⟨?_, hpL1, fun r hr hid => hIdFix r hr ⟨hp, hid⟩⟩
  show update_orders p L1 = L1
  unfold update_orders
  rw [hbase]
  exact dedupe_orders_nodup_id _ hnd

-- C5 amended lemma
theorem fold_update_distinct (l : List Order) :
    ∀ acc : List Order, (∀ o ∈ acc, o.id ≠ "") → (∀ o ∈ l, o.id ≠ "") →
    (acc.map Order.id ++ l.map Order.id).Nodup →
    l.foldl (fun s q => update_orders q s) acc = acc ++ l := by
  induction l with
  | nil => intro acc _ _ _; simp
  | cons q t ih =>
    intro acc hacc hl hnd
    have hq : q.id ≠ "" := hl q (by simp)
    have hqfresh : q.id ∉ acc.map Order.id := by
      simp only [List.map_cons, List.nodup_append, List.nodup_cons] at hnd
      intro hmem
      exact absurd (by simp : q.id ∈ q.id :: t.map Order.id) (hnd.2.2 hmem)
    have hstep : update_orders q acc = acc ++ [q] := by
      unfold update_orders mergeBase
      have hnom : replace_by_id q acc = (acc, false) := by
        apply replace_nomatch
        intro o ho ⟨_, hoid⟩
        exact hqfresh (by simp only [List.mem_map]; exact ⟨o, ho, hoid⟩)
      rw [hnom]
      simp only [if_neg (by simp : ¬(false = true))]
      apply dedupe_orders_nodup_id
      have hkeys : (acc ++ [q]).map dedupe_key = (acc ++ [q]).map Order.id := by
        apply List.map_congr_left
        intro o ho
        rcases List.mem_append.mp ho with hm | hm
        · exact dedupe_key_id (hacc o hm)
        · simp only [List.mem_singleton] at hm
          subst hm
          exact dedupe_key_id hq
      rw [hkeys]
      simp only [List.map_append, List.map_cons, List.map_nil]
      simp only [List.nodup_append, List.nodup_cons] at hnd ⊢
      refine ⟨hnd.1, by simp, ?_⟩
      intro x hx
      simp only [List.mem_singleton]
      intro he
      subst he
      exact absurd (by simp) (hnd.2.2 hx)
    simp only [List.foldl_cons, hstep]
    rw [ih (acc ++ [q]) ?h1 (fun o ho => hl o (List.mem_cons_of_mem _ ho)) ?h2]
    · simp
    case h1 =>
      intro o ho
      rcases List.mem_append.mp ho with hm | hm
      · exact hacc o hm
      · simp only [List.mem_singleton] at hm; subst hm; exact hq
    case h2 =>
      simp only [List.map_append, List.map_cons, List.map_nil, List.append_assoc,
        List.singleton_append]
      simpa using hnd
theorem weeklyStep_add (ws : Int) (w : Weekly) (o : Order) :
    weeklyStep ws w o = wplus w (weeklyDelta ws o) := by
  obtain ⟨⟨nc, ns⟩, ⟨cc, cs⟩⟩ := w
  unfold weeklyStep weeklyDelta weeklyStep
  split
  · simp [wplus]
  · split
    · simp [wplus]
    · split
      · simp [wplus]
      · simp [wplus]

theorem wplus_right_comm (w a b : Weekly) : wplus (wplus w a) b = wplus (wplus w b) a := by
  obtain ⟨⟨nc, ns⟩, ⟨cc, cs⟩⟩ := w
  obtain ⟨⟨anc, ans⟩, ⟨acc, acs⟩⟩ := a
  obtain ⟨⟨bnc, bns⟩, ⟨bcc, bcs⟩⟩ := b
  simp only [wplus, Weekly.mk.injEq, Bucket.mk.injEq]
  refine ⟨⟨by omega, by omega⟩, by omega, by omega⟩

theorem weekly_foldl_wplus (ws : Int) (l : List Order) (w d : Weekly) :
    l.foldl (weeklyStep ws) (wplus w d) = wplus (l.foldl (weeklyStep ws) w) d := by
  induction l generalizing w with
  | nil => rfl
  | cons o t ih =>
    simp only [List.foldl_cons]
    rw [weeklyStep_add ws (wplus w d) o, wplus_right_comm, ← weeklyStep_add, ih]

theorem weekly_insert (ws : Int) (o : Order) (pre post : List Order) (w : Weekly) :
    (pre ++ o :: post).foldl (weeklyStep ws) w =
      wplus ((pre ++ post).foldl (weeklyStep ws) w) (weeklyDelta ws o) := by
  induction pre generalizing w with
  | nil =>
    simp only [List.nil_append, List.foldl_cons]
    rw [weeklyStep_add, ← weekly_foldl_wplus]
  | cons q t ih =>
    simp only [List.cons_append, List.foldl_cons]
    exact ih (weeklyStep ws w q)

theorem weeklyDelta_zero_moment (ws : Int) (o : Order) (h : order_moment_ms o = 0) :
    weeklyDelta ws o = weekly_contribution o := by
  unfold weeklyDelta weeklyStep weekly_contribution
  rw [if_neg (by simp [h])]
  split
  · simp
  · split
    · simp
    · rfl

theorem counts_foldl_new (l : List Order) (s : Stats) :
    (l.foldl countsStep s).new_orders =
      s.new_orders + l.countP (fun o => !(is_cdek_state o.state) && is_new_order o.state) := by
  induction l generalizing s with
  | nil => simp
  | cons o t ih =>
    simp only [List.foldl_cons, List.countP_cons, ih]
    unfold countsStep
    by_cases hc : is_cdek_state o.state
    · simp [hc]
    · by_cases hn : is_new_order o.state
      · simp only [if_neg hc, if_pos hn]
        simp [hc, hn]
        omega
      · simp only [if_neg hc, if_neg hn]
        simp [hc, hn]

theorem is_new_not_cdek (s : String) (h : is_new_order s = true) : is_cdek_state s = false := by
  unfold is_new_order at h
  split at h
  · rename_i hcase
    rcases hcase with rfl | rfl
    · decide
    · decide
  · unfold is_cdek_state
    simp only [Bool.and_eq_true, Bool.not_eq_eq_eq_not, Bool.not_true] at h
    exact h.2

/-- `read_cache` either returns nothing or a snapshot `cache_is_valid`
accepts (the `if` at app.py lines 677-679). -/
theorem read_cache_cases (fs : Option String) :
    read_cache fs = none ∨ cache_is_valid (read_cache fs) = true := by
  unfold read_cache
  by_cases h : cache_is_valid (load_cache_unlocked fs)
  · right
    rw [if_pos h]
    exact h
  · left
    rw [if_neg h]

/-- Claim C2 counterexample: a snapshot whose `updated_at` parsed to an
instant exactly `CACHE_TTL_SECONDS` in the past is NOT reported stale by
`cache_is_stale`, contrary to the claim's "exactly ttl_seconds in the past
is stale" — the comparison at app.py line 745 is strict. -/
theorem stale_at_exact_ttl_cex :
    cache_is_stale (some 0) CACHE_TTL_SECONDS = false := by decide

/-- Claim C2 (amended): `cache_is_stale` is true exactly when `updated_at`
is absent/unparseable or strictly older than `CACHE_TTL_SECONDS`; a
snapshot exactly `ttl` old is not stale, one second over the threshold is
stale, and one second under is not (exclusive `elapsed > ttl`). -/
theorem cache_is_stale_spec (t now : Int) :
    cache_is_stale none now = true ∧
    (cache_is_stale (some t) now = true ↔ now - t > CACHE_TTL_SECONDS) ∧
    cache_is_stale (some t) (t + CACHE_TTL_SECONDS) = false ∧
    cache_is_stale (some t) (t + CACHE_TTL_SECONDS + 1) = true ∧
    cache_is_stale (some t) (t + CACHE_TTL_SECONDS - 1) = false := by
  refine ⟨rfl, ?_, ?_, ?_, ?_⟩ <;>
    simp [cache_is_stale, CACHE_TTL_SECONDS] <;> omega

/-- Claim C6: the cache load never errors — `read_cache` returns `none` on
a missing file, undecodable content, or a decoded value that is not an
object carrying `orders`; otherwise it returns the parsed snapshot, and any
returned snapshot satisfies `cache_is_valid`. -/
theorem read_cache_malformed_spec (fs : Option String) :
    (read_cache fs = none ∨ ∃ j, read_cache fs = some j ∧ cache_is_valid (some j) = true) ∧
    read_cache none = none ∧
    (∀ s, load_cache_unlocked (some s) = loads s) ∧
    (∀ s, loads s = none → read_cache (some s) = none) ∧
    (∀ s j, loads s = some j → cache_is_valid (some j) = false → read_cache (some s) = none) ∧
    (∀ s j, loads s = some j → cache_is_valid (some j) = true → read_cache (some s) = some j) := by
  refine ⟨?_, rfl, fun s => rfl, ?_, ?_, ?_⟩
  · by_cases h : cache_is_valid (load_cache_unlocked fs)
    · cases hload : load_cache_unlocked fs with
      | none =>
        rw [hload] at h
        exact absurd h (by simp [cache_is_valid])
      | some j =>
        right
        rw [hload] at h
        refine ⟨j, ?_, h⟩
        unfold read_cache
        rw [hload, if_pos h]
    · left
      unfold read_cache
      rw [if_neg h]
  · intro s hs
    unfold read_cache
    have hload : load_cache_unlocked (some s) = none := by
      show loads s = none
      exact hs
    rw [hload]
    simp [cache_is_valid]
  · intro s j hs hv
    unfold read_cache
    have hload : load_cache_unlocked (some s) = some j := by
      show loads s = some j
      exact hs
    rw [hload, if_neg (by simp [hv])]
  · intro s j hs hv
    unfold read_cache
    have hload : load_cache_unlocked (some s) = some j := by
      show loads s = some j
      exact hs
    rw [hload, if_pos hv]

/-- Claim C6 witness: undecodable cache content yields `None`, not an
error. -/
theorem read_cache_malformed_spec_witness :
    read_cache (some "not json") = none :=
  (read_cache_malformed_spec (some "not json")).2.2.2.1 "not json" rfl

/-- Claim C4: the snapshot file round-trips — loading the file after
writing snapshot `c` reproduces the serialized document exactly, byte-level
deserialization inverts serialization, and every defined field (orders and
stats included) is recovered by the field-level reader. -/
theorem load_write_roundtrip (c : Cache) :
    read_cache (write_cache c) = some (cacheToJson c) ∧
    loads (dumps (cacheToJson c)) = some (cacheToJson c) ∧
    cacheFromJson (cacheToJson c) = some c := by
  have hl : loads (dumps (cacheToJson c)) = some (cacheToJson c) := loads_dumps _
  refine ⟨?_, hl, cacheFromJson_cacheToJson c⟩
  have h2 : load_cache_unlocked (write_cache c) = some (cacheToJson c) := by
    show loads (dumps (cacheToJson c)) = some (cacheToJson c)
    exact hl
  unfold read_cache
  rw [h2, if_pos (cache_is_valid_toJson c)]

/-- Claim C3 counterexample: merging the payload `cexP` (non-empty id
`A-X`) twice into a snapshot holding the empty-id record `cexQ` (whose
fallback key `name-moment` is also `A-X` with a newer `moment_ms`) leaves
the snapshot equal to `[cexQ]`: no record with the payload's id exists
afterwards, refuting the claim for this starting snapshot. -/
theorem merge_idempotent_cex :
    cexP.id ≠ "" ∧ cexQ.id = "" ∧
    update_orders cexP (update_orders cexP [cexQ]) = [cexQ] ∧
    (∀ r ∈ update_orders cexP (update_orders cexP [cexQ]), r.id ≠ cexP.id) := by decide

/-- Claim C3 (amended): for a payload with non-empty id, merging twice in a
row leaves the order count unchanged, and — provided no empty-id record of
the starting snapshot has a fallback key (`name ++ "-" ++ moment`) equal to
the payload's id — the merged snapshot contains the payload and every
record carrying the payload's id has exactly the payload's fields. -/
theorem merge_idempotent_spec (p : Order) (S : List Order) (hp : p.id ≠ "")
    (hS : ∀ q ∈ S, q.id = "" → q.name ++ "-" ++ q.moment ≠ p.id) :
    (update_orders p (update_orders p S)).length = (update_orders p S).length ∧
    update_orders p (update_orders p S) = update_orders p S ∧
    p ∈ update_orders p (update_orders p S) ∧
    ∀ r ∈ update_orders p (update_orders p S), r.id = p.id → r = p := by
  obtain ⟨heq, hmem, hkey⟩ := update_orders_idem p S hp hS
  refine ⟨by rw [heq], heq, by rw [heq]; exact hmem, by rw [heq]; exact hkey⟩

/-- Claim C3 witness: the double merge of `cexP` over a snapshot holding a
record with the same id keeps the order count. -/
theorem merge_idempotent_spec_witness :
    (update_orders cexP (update_orders cexP [cexR])).length =
      (update_orders cexP [cexR]).length :=
  (merge_idempotent_spec cexP [cexR] (by decide) (by decide)).1

/-- Claim C5 counterexample: two sequential `update_orders` merges with
distinct ids (`A-X` and the empty id) against an empty snapshot end with a
single record in either execution order — the empty-id record's fallback
key collides with the other id, so one update is lost. -/
theorem merge_distinct_ids_cex :
    cexP.id ≠ cexQ.id ∧
    ([cexP, cexQ].foldl (fun s q => update_orders q s) []).length = 1 ∧
    ([cexQ, cexP].foldl (fun s q => update_orders q s) []).length = 1 := by decide

/-- Claim C5 (amended): merging any list of payloads with distinct
NON-EMPTY ids into an initially empty snapshot — in any serialization
order, which is what the cache lock reduces concurrent `merge_one` calls
to — yields exactly one record per payload: never fewer. -/
theorem merge_distinct_nonempty_ids_spec (l : List Order)
    (h1 : ∀ o ∈ l, o.id ≠ "") (h2 : (l.map Order.id).Nodup) :
    l.foldl (fun s q => update_orders q s) [] = l ∧
    (l.foldl (fun s q => update_orders q s) []).length = l.length ∧
    ∀ l' : List Order, l'.Perm l →
      (l'.foldl (fun s q => update_orders q s) []).length = l.length := by
  have hbase := fold_update_distinct l [] (fun o ho => absurd ho (List.not_mem_nil o)) h1
    (by simpa using h2)
  simp only [List.nil_append] at hbase
  refine ⟨hbase, by rw [hbase], ?_⟩
  intro l' hperm
  have h1' : ∀ o ∈ l', o.id ≠ "" := fun o ho => h1 o (hperm.mem_iff.mp ho)
  have h2' : (l'.map Order.id).Nodup := ((hperm.map Order.id).nodup_iff).mpr h2
  have hb' := fold_update_distinct l' [] (fun o ho => absurd ho (List.not_mem_nil o)) h1'
    (by simpa using h2')
  simp only [List.nil_append] at hb'
  rw [hb']
  exact hperm.length_eq

/-- Claim C5 witness: two distinct-id merges from empty end with exactly
those two records. -/
theorem merge_distinct_nonempty_ids_spec_witness :
    [wOrder1, wOrder2].foldl (fun s q => update_orders q s) [] = [wOrder1, wOrder2] :=
  (merge_distinct_nonempty_ids_spec [wOrder1, wOrder2] (by decide) (by decide)).1

set_option maxRecDepth 100000 in
/-- Claim C1: evaluated at the failing input — a valid prior snapshot
holding one order, and a fetch returning one raw order whose normalization
raises — `refresh_cache` REPLACES the stored file, the snapshot it returns
and persists decodes to the empty-orders rebuild, and the prior data is
gone.  `build_cache_from_orders` always yields a dict with an `orders` key,
so the `cache_is_valid` guard at app.py line 2046 accepts the empty rebuild
and the "keeping existing data" branch at lines 2052-2054 is unreachable:
the code contradicts the retention rule the spec (and its own log message)
states. -/
theorem refresh_allfail_overwrites_prior :
    (refresh_cache (.ok [none]) 0 "2026-01-02 00:00" (write_cache priorCache)).1 ≠
      write_cache priorCache ∧
    ((refresh_cache (.ok [none]) 0 "2026-01-02 00:00" (write_cache priorCache)).2).bind
        cacheFromJson = some (cache_payload 0 "2026-01-02 00:00" []) ∧
    (cache_payload 0 "2026-01-02 00:00" []).orders = [] ∧
    (read_cache ((refresh_cache (.ok [none]) 0 "2026-01-02 00:00" (write_cache priorCache)).1)).bind
        cacheFromJson = some (cache_payload 0 "2026-01-02 00:00" []) ∧
    (read_cache (write_cache priorCache)).bind cacheFromJson = some priorCache := by decide

set_option maxRecDepth 100000 in
/-- Claim C7 counterexample: with a valid prior snapshot stored, a refresh
whose fetch succeeds with two raw orders of which the second raises during
normalization does NOT return the previously stored snapshot — it returns
(and persists) a fresh rebuild containing only the order that normalized,
refuting "the previously stored valid snapshot is returned" for
normalize-phase exceptions. -/
theorem refresh_normalize_exception_cex :
    (read_cache (write_cache priorCache)).bind cacheFromJson = some priorCache ∧
    ((refresh_cache (.ok [some newOrderB, none]) 0 "2026-01-02 00:00"
        (write_cache priorCache)).2).bind cacheFromJson =
      some (cache_payload 0 "2026-01-02 00:00" [newOrderB]) ∧
    cache_payload 0 "2026-01-02 00:00" [newOrderB] ≠ priorCache := by decide

/-- Claim C7 (amended): `refresh_cache` never propagates an exception.  An
exception that aborts the fetch leaves the file untouched and returns the
previously stored valid snapshot when one exists and `None` otherwise
(`read_cache fs` is exactly that); an exception normalizing an individual
order is caught inside the rebuild, which still completes and is returned,
with the failing orders skipped (`filterMap`). -/
theorem refresh_failure_fallback_spec (e : Unit) (week_start : Int) (now : String)
    (fs : Option String) (raws : List (Option Order)) :
    refresh_cache (.error e) week_start now fs = (fs, read_cache fs) ∧
    (refresh_cache (.ok raws) week_start now fs).1 =
      write_cache (build_cache_from_orders week_start now raws) ∧
    (refresh_cache (.ok raws) week_start now fs).2 =
      some (cacheToJson (build_cache_from_orders week_start now raws)) ∧
    (build_cache_from_orders week_start now raws).orders =
      dedupe_orders (raws.filterMap id) := by
  have herr : refresh_cache (.error e) week_start now fs =
      (fs, if cache_is_valid (read_cache fs) then read_cache fs else none) := rfl
  have hok : refresh_cache (.ok raws) week_start now fs =
      if cache_is_valid (some (cacheToJson (build_cache_from_orders week_start now raws))) then
        (write_cache (build_cache_from_orders week_start now raws),
         some (cacheToJson (build_cache_from_orders week_start now raws)))
      else if cache_is_valid (read_cache fs) then (fs, read_cache fs)
      else (write_cache (build_cache_from_orders week_start now raws),
            some (cacheToJson (build_cache_from_orders week_start now raws))) := rfl
  refine ⟨?_, ?_, ?_, rfl⟩
  · rw [herr]
    rcases read_cache_cases fs with h | h
    · rw [h]
      simp [cache_is_valid]
    · rw [if_pos h]
  · rw [hok, if_pos (cache_is_valid_toJson _)]
  · rw [hok, if_pos (cache_is_valid_toJson _)]

/-- Claim C8: `broadcast_event` offers one payload to every subscriber
independently (the result is the pointwise `try_put` image, so no
subscriber is removed and each outcome depends only on that subscriber's
own queue); a full queue drops the payload for that subscriber only, a
queue with room receives it appended, and a queue within capacity never
exceeds its capacity. -/
theorem broadcast_nonblocking_spec (payload : String) (subs : List Subscriber) :
    broadcast_event payload subs = subs.map (try_put payload) ∧
    (broadcast_event payload subs).length = subs.length ∧
    (∀ q : Subscriber, q.cap ≤ q.buf.length → try_put payload q = q) ∧
    (∀ q : Subscriber, q.buf.length < q.cap →
      try_put payload q = { q with buf := q.buf ++ [payload] }) ∧
    (∀ q : Subscriber, q.buf.length ≤ q.cap → (try_put payload q).buf.length ≤ q.cap) := by
  have hmap : broadcast_event payload subs = subs.map (try_put payload) := by
    induction subs with
    | nil => rfl
    | cons q t ih => simp [broadcast_event, ih]
  refine ⟨hmap, by rw [hmap]; simp, ?_, ?_, ?_⟩
  · intro q h
    unfold try_put
    rw [if_neg (by omega)]
  · intro q h
    unfold try_put
    rw [if_pos h]
  · intro q h
    unfold try_put
    split
    · rename_i hlt
      simp only [List.length_append, List.length_cons, List.length_nil]
      omega
    · exact h

/-- Claim C8 witness: a capacity-1 queue already holding one unread event
drops a second broadcast (the enqueue leaves it unchanged). -/
theorem broadcast_nonblocking_spec_witness :
    (Subscriber.mk 1 ["e1"]).cap ≤ (Subscriber.mk 1 ["e1"]).buf.length ∧
    try_put "p2" (Subscriber.mk 1 ["e1"]) = Subscriber.mk 1 ["e1"] :=
  ⟨by decide, (broadcast_nonblocking_spec "p2" []).2.2.1 (Subscriber.mk 1 ["e1"]) (by decide)⟩

/-- Claim C9: an order whose status is empty or the placeholder `—` is
classified as new by `is_new_order` and therefore increments the
`new_orders` statistic wherever it sits in the snapshot; and a
new-classified status never carries the CDEK substring, so the CDEK branch
(the only earlier branch of the stats cascade) never steals it. -/
theorem empty_status_is_new_spec :
    is_new_order "" = true ∧ is_new_order EMPTY_VALUE = true ∧
    (∀ (ws : Int) (o : Order) (pre post : List Order),
      o.state = "" ∨ o.state = EMPTY_VALUE →
      (stats_from_orders ws (pre ++ o :: post)).new_orders =
        (stats_from_orders ws (pre ++ post)).new_orders + 1) ∧
    (∀ s, is_new_order s = true → is_cdek_state s = false) := by
  refine ⟨by decide, by decide, ?_, is_new_not_cdek⟩
  intro ws o pre post hstate
  have hpred : (!(is_cdek_state o.state) && is_new_order o.state) = true := by
    rcases hstate with h | h <;> rw [h] <;> decide
  have hview : ∀ L : List Order, (stats_from_orders ws L).new_orders =
      (L.foldl countsStep ⟨0, 0, 0, ⟨⟨0, 0⟩, ⟨0, 0⟩⟩⟩).new_orders := fun L => rfl
  rw [hview, hview, counts_foldl_new, counts_foldl_new]
  simp only [List.countP_append, List.countP_cons, hpred, eq_self_iff_true, if_true]
  omega

/-- Claim C9 witness: appending an empty-status order to a one-order
snapshot raises the new-order count by one. -/
theorem empty_status_is_new_spec_witness :
    (stats_from_orders 0 [wOrder1, emptyStateOrder]).new_orders =
      (stats_from_orders 0 [wOrder1]).new_orders + 1 := by
  have h := empty_status_is_new_spec.2.2.1 0 emptyStateOrder [wOrder1] [] (Or.inl rfl)
  simpa using h

/-- Claim C10: an order whose derived `moment_ms` is 0 (timestamp absent or
unparseable) is never excluded by the trailing-week window: wherever it
sits, `weekly_sales_stats` adds exactly its classification contribution —
independent of the window start — so a zero-moment CDEK order always adds
one to the CDEK weekly count and its amount to the CDEK weekly sum, and a
zero-moment new order does the same for the new bucket. -/
theorem weekly_zero_moment_included_spec (ws : Int) (o : Order) (pre post : List Order)
    (h : order_moment_ms o = 0) :
    weekly_sales_stats ws (pre ++ o :: post) =
      wplus (weekly_sales_stats ws (pre ++ post)) (weekly_contribution o) ∧
    (is_cdek_state o.state = true →
      (weekly_sales_stats ws (pre ++ o :: post)).cdek_orders.count =
        (weekly_sales_stats ws (pre ++ post)).cdek_orders.count + 1 ∧
      (weekly_sales_stats ws (pre ++ o :: post)).cdek_orders.sum =
        (weekly_sales_stats ws (pre ++ post)).cdek_orders.sum + o.sum) ∧
    (is_cdek_state o.state = false → is_new_order o.state = true →
      (weekly_sales_stats ws (pre ++ o :: post)).new_orders.count =
        (weekly_sales_stats ws (pre ++ post)).new_orders.count + 1 ∧
      (weekly_sales_stats ws (pre ++ o :: post)).new_orders.sum =
        (weekly_sales_stats ws (pre ++ post)).new_orders.sum + o.sum) := by
  have hmain : weekly_sales_stats ws (pre ++ o :: post) =
      wplus (weekly_sales_stats ws (pre ++ post)) (weekly_contribution o) := by
    unfold weekly_sales_stats
    rw [weekly_insert, weeklyDelta_zero_moment ws o h]
  refine ⟨hmain, ?_, ?_⟩
  · intro hc
    rw [hmain]
    unfold weekly_contribution
    rw [if_pos hc]
    simp [wplus]
  · intro hc hn
    rw [hmain]
    unfold weekly_contribution
    rw [if_neg (by simp [hc]), if_pos hn]
    simp [wplus]

/-- Claim C10 witness: a CDEK order with `moment_ms = 0` is counted in the
weekly CDEK bucket even under a window start far in the future. -/
theorem weekly_zero_moment_included_spec_witness :
    (weekly_sales_stats 999999 [cdekZeroOrder]).cdek_orders.count =
      (weekly_sales_stats 999999 ([] : List Order)).cdek_orders.count + 1 := by
  have h := (weekly_zero_moment_included_spec 999999 cdekZeroOrder [] [] rfl).2.1 (by decide)
  simpa using h.1
